import Mathlib

/-!
# Verification of the 2D Stable Fluids simulator (`main.c`)

A shallow embedding of the numerical core of the simulator: the texture
allocation (`createTextures`), the per-step pipeline (`simulate`), force
injection (`addForce`), the convergence diagnostics
(`computeStats2D`, `evaluateConvergence`, `printStats2DTable`) and the offline
relaxation-parameter search (`setupImpulseTest`, `testOmega`, `runOmegaSearch`).

Modelling conventions:

* GPU textures are total functions over `Fin 512` indices (`SIM_WIDTH` =
  `SIM_HEIGHT` = 512); float scalars are modelled as `ℚ`.  Float literals of
  the C source (`1.8f`, `1.9f`, `0.999f`, `0.016f`, …) are embedded as the
  decimal rationals they denote; no claim below depends on the rounding of
  these literals to binary floating point.
* The bodies of the compute shaders dispatched by `main.c`
  (`advect.comp`, `advect_density.comp`, `divergence.comp`, `pressure.comp`,
  `gradient_subtract.comp`, `add_force.comp`) are not part of the sources;
  they enter the model as an abstract bundle of field transformers
  (`Kernels`).  Everything proved below about control flow, dispatch order,
  buffer bindings and parameter plumbing holds for *every* choice of kernel
  semantics.  The one shader whose behaviour a claim quantifies
  (`divergence_stats.comp`) is modelled from the spec, see `computeStats2D`.
* Each GL call of interest made by the CPU code is recorded as an `Op` in a
  trace, in the exact order `main.c` issues it: compute dispatches with the
  image bindings and uniform values they receive, `glMemoryBarrier` calls,
  and the buffer/texture clears.
-/

namespace StableFluids

/-- `SIM_WIDTH` = `SIM_HEIGHT` = 512 (`main.c:16-17`). -/
def simSize : ℕ := 512

/-- A scalar `R32F` texture of the simulation grid (pressure, divergence). -/
def Field : Type := Fin 512 → Fin 512 → ℚ

/-- An `RG32F` texture: both velocity components stored per texel
(`createTextures`, `main.c:211-220`). -/
def VelField : Type := Fin 512 → Fin 512 → ℚ × ℚ

/-- An `RGBA32F` density/dye texture (`main.c:251-260`). -/
def DField : Type := Fin 512 → Fin 512 → ℚ × ℚ × ℚ × ℚ

/-- The all-zero scalar field: contents of a texture after `clearTextureR`
(`main.c:195-198`), which uploads the `calloc`-zeroed `clearDataR` over the
full `SIM_WIDTH × SIM_HEIGHT` extent. -/
def zeroField : Field := fun _ _ => 0

/-- Contents of a velocity texture after `clearTextureRG` (`main.c:200-203`). -/
def zeroVel : VelField := fun _ _ => (0, 0)

/-- Contents of a density texture after `clearTextureRGBA` (`main.c:205-208`). -/
def zeroD : DField := fun _ _ => (0, 0, 0, 0)

/-- The 32×32 convergence histogram `DivergenceStats2D` (`main.c:25-27`).
`counts post pre` is `histogram[post * 32 + pre]` of the C struct. -/
structure Hist where
  counts : Fin 32 → Fin 32 → ℕ

/-- The zero histogram, as written by `clearStats2D` (`main.c:263-267`). -/
def zeroHist : Hist := ⟨fun _ _ => 0⟩

/-- Which divergence texture a divergence dispatch writes:
`divergenceTex` (pre-projection) or `postDivergenceTex` (`main.c:50-51`). -/
inductive DivTarget where
  | pre
  | post
deriving DecidableEq

/-- One CPU-issued GL action of the numerical core.  Buffer indices are
`Bool` (`false` = index 0 of the double-buffer pair).  A `sweep` records the
single pressure image binding of `main.c:614`: the texture is bound once with
access `GL_READ_WRITE`, so the buffer read and the buffer written are recorded
separately (they are equal in the code). -/
inductive Op where
  /-- dispatch of `advectProgram`: reads `velocityTex[src]`, writes
  `velocityTex[dst]`, with the `dissipation` uniform (`main.c:588-599`). -/
  | advectVel (src dst : Bool) (dissipation : ℚ)
  /-- dispatch of `advectDensityProgram`: advects `densityTex[src]` into
  `densityTex[dst]` by `velocityTex[vel]` (`main.c:649-660`). -/
  | advectDen (vel src dst : Bool) (dissipation : ℚ)
  /-- dispatch of `divergenceProgram` from `velocityTex[vel]` into the given
  target texture (`main.c:602-608`, `main.c:638-643`). -/
  | divergence (vel : Bool) (target : DivTarget)
  /-- `clearTextureR(pressureTex[buf])`: full-extent zero upload (`main.c:611`). -/
  | clearPressure (buf : Bool)
  /-- one half-sweep dispatch of `pressureProgram` with the `redPass` flag,
  reading `pressureTex[readBuf]` and writing `pressureTex[writeBuf]`
  (the same `GL_READ_WRITE` binding), at relaxation `omega` (`main.c:612-626`). -/
  | sweep (red : Bool) (readBuf writeBuf : Bool) (omega : ℚ)
  /-- dispatch of `gradientSubtractProgram`: reads `pressureTex[pres]` and
  `velocityTex[velIn]`, writes `velocityTex[velOut]` (`main.c:628-635`). -/
  | gradientSubtract (pres velIn velOut : Bool)
  /-- `clearStats2D()`: zeroes the histogram SSBO (`main.c:263-267`, `646`). -/
  | clearStats
  /-- dispatch of `divergenceStatsProgram` over the two divergence textures
  (`computeStats2D`, `main.c:269-276`, `647`). -/
  | accumStats
  /-- dispatch of `addForceProgram` on `velocityTex[vel]`, `densityTex[den]`
  (`main.c:680-688`). -/
  | forceDispatch (vel den : Bool)
  /-- a `glMemoryBarrier` call. -/
  | barrier
  /-- `pressureOmega = omega;` (`testOmega`, `main.c:756`). -/
  | setOmega (omega : ℚ)
  /-- `setupImpulseTest()` (`main.c:709-728`). -/
  | resetImpulse
  /-- `evaluateConvergence(...)` readback (`main.c:731-753`, `765`). -/
  | evalConv
deriving DecidableEq

/-- The mutable simulation state of `main.c`: the GL texture contents, the
double-buffer cursors (`main.c:61-63`), the histogram SSBO, and the global
solver parameters (`main.c:22-23`). -/
structure SimState where
  currentVel : Bool
  currentPressure : Bool
  currentDensity : Bool
  vel : Bool → VelField
  pres : Bool → Field
  divergenceTex : Field
  postDivergenceTex : Field
  dens : Bool → DField
  hist : Hist
  pressureIterations : ℕ
  pressureOmega : ℚ

/-- Write one slot of a double-buffer pair. -/
def updateBuf {α : Type} (f : Bool → α) (b : Bool) (v : α) : Bool → α :=
  fun b' => if b' = b then v else f b'

/-- Abstract semantics of the compute shaders dispatched by `main.c`.  Their
GLSL sources are not among the repository sources here, so each is an
uninterpreted field transformer; the theorems below quantify over all of
them.  `force`/`forceDye` absorb the radius and direction-to-hue uniforms of
`add_force.comp` (`main.c:674-684`), whose trigonometric colour computation
is outside the rational model. -/
structure Kernels where
  advect : ℚ → ℚ → VelField → VelField
  divergence : VelField → Field
  sweep : Bool → ℚ → Field → Field → Field
  gradSub : Field → VelField → VelField
  advectDensity : ℚ → ℚ → VelField → DField → DField
  force : ℚ × ℚ → ℚ × ℚ → VelField → VelField
  forceDye : ℚ × ℚ → ℚ × ℚ → DField → DField

/-- Log-magnitude bin of one divergence value.

Modelled from the spec: the classification performed by
`shaders/divergence_stats.comp`, which is not among the sources.  Per §4.6 a
cell's `|divergence|` is binned as `floor(log2 |v|) + offset` (the offset is
24: `main.c` prints every bin index as `bin - 24`), values below the smallest
representable bin clamp to bin 0, and per §7 out-of-range values clamp to the
nearest valid bin, so totals stay conserved. -/
def binOf (v : ℚ) : Fin 32 :=
  if v = 0 then ⟨0, by norm_num⟩
  else ⟨min 31 (Int.toNat (Int.log 2 |v| + 24)), by
    have : min 31 (Int.toNat (Int.log 2 |v| + 24)) ≤ 31 := min_le_left _ _
    omega⟩

/-- The (post-bin, pre-bin) pair of one grid cell. -/
def binPair (pre post : Field) (c : Fin 512 × Fin 512) : Fin 32 × Fin 32 :=
  (binOf (post c.1 c.2), binOf (pre c.1 c.2))

/-- The histogram contents after `clearStats2D()` followed by the
`computeStats2D` dispatch over the two divergence textures (`main.c:646-647`).

Modelled from the spec: `shaders/divergence_stats.comp` is not among the
sources; per §4.6/§5 it accumulates, for every one of the `N × N` grid cells,
exactly one atomic count into the joint `(pre-bin, post-bin)` table. -/
def computeStats2D (pre post : Field) : Hist :=
  ⟨fun bpost bpre =>
    (Finset.univ.filter (fun c : Fin 512 × Fin 512 =>
      binPair pre post c = (bpost, bpre))).card⟩

/-- `p_new` after one full SOR iteration: the Red half-sweep followed by the
Black half-sweep of the loop body `main.c:617-626`. -/
def sorIter (K : Kernels) (ω : ℚ) (div : Field) (p : Field) : Field :=
  K.sweep false ω div (K.sweep true ω div p)

/-- The four GL actions of one iteration of the pressure loop
(`main.c:617-626`): Red dispatch, barrier, Black dispatch, barrier, all on
the single `GL_READ_WRITE` binding of `pressureTex[cp]`. -/
def sorSweepOps (cp : Bool) (ω : ℚ) : List Op :=
  [Op.sweep true cp cp ω, Op.barrier, Op.sweep false cp cp ω, Op.barrier]

/-- The trace of GL actions of one `simulate(dt)` call (`main.c:584-662`),
as a function of the buffer cursors and solver parameters at entry. -/
def simTrace (cv cp cd : Bool) (n : ℕ) (ω : ℚ) : List Op :=
  [Op.advectVel cv (!cv) 1, Op.barrier,
   Op.divergence (!cv) DivTarget.pre, Op.barrier,
   Op.clearPressure cp] ++
  (List.replicate n (sorSweepOps cp ω)).flatten ++
  [Op.gradientSubtract cp (!cv) cv, Op.barrier,
   Op.divergence cv DivTarget.post, Op.barrier,
   Op.clearStats, Op.accumStats, Op.barrier,
   Op.advectDen cv cd (!cd) (999/1000), Op.barrier]

/-- `simulate(dt)` (`main.c:584-662`), step by step:

1. advect velocity out of `velocityTex[currentVel]` with dissipation `1.0f`,
   flip `currentVel`;
2. compute pre-projection divergence into `divergenceTex`;
3. zero `pressureTex[currentPressure]` in full, then run exactly
   `pressureIterations` iterations, each one Red half-sweep then one Black
   half-sweep with a `glMemoryBarrier` after each dispatch, in place on the
   single `GL_READ_WRITE` binding;
4. subtract the pressure gradient into the other velocity buffer, flip
   `currentVel` back;
5. compute post-projection divergence into `postDivergenceTex`;
6. `clearStats2D()` then the stats dispatch over both divergence textures;
7. advect density with dissipation `0.999f`, flip `currentDensity`. -/
def simulate (K : Kernels) (dt : ℚ) (s : SimState) : SimState × List Op :=
  let v1 := K.advect dt 1 (s.vel s.currentVel)
  let div := K.divergence v1
  let p := (sorIter K s.pressureOmega div)^[s.pressureIterations] zeroField
  let v2 := K.gradSub p v1
  let post := K.divergence v2
  let d1 := K.advectDensity dt (999/1000) v2 (s.dens s.currentDensity)
  ({ currentVel := s.currentVel
     currentPressure := s.currentPressure
     currentDensity := !s.currentDensity
     vel := updateBuf (updateBuf s.vel (!s.currentVel) v1) s.currentVel v2
     pres := updateBuf s.pres s.currentPressure p
     divergenceTex := div
     postDivergenceTex := post
     dens := updateBuf s.dens (!s.currentDensity) d1
     hist := computeStats2D div post
     pressureIterations := s.pressureIterations
     pressureOmega := s.pressureOmega },
   simTrace s.currentVel s.currentPressure s.currentDensity
     s.pressureIterations s.pressureOmega)

/-- `forceScale` of `addForce` (`main.c:670`): `300.0f * SIM_WIDTH`. -/
def forceScale : ℚ := 300 * 512

/-- `addForce(x, y, dx, dy)` (`main.c:664-690`): scales the drag delta,
then dispatches `addForceProgram` once on the *current* velocity and density
buffers bound `GL_READ_WRITE` (read-modify-write in place, no buffer flip),
followed by one barrier.  It is called from `cursorPosCallback`
(`main.c:799-816`), never from `simulate`. -/
def addForce (K : Kernels) (x y dx dy : ℚ) (s : SimState) : SimState × List Op :=
  let fx := dx * forceScale
  let fy := dy * forceScale
  ({ s with
     vel := updateBuf s.vel s.currentVel
       (K.force (x, y) (fx, fy) (s.vel s.currentVel))
     dens := updateBuf s.dens s.currentDensity
       (K.forceDye (x, y) (fx, fy) (s.dens s.currentDensity)) },
   [Op.forceDispatch s.currentVel s.currentDensity, Op.barrier])

/-! ## Texture allocation (`createTextures`, `main.c:210-261`) -/

/-- The simulation textures created at startup (`main.c:47-52`). -/
inductive TexName where
  | velocity (i : Fin 2)
  | pressure (i : Fin 2)
  | divergenceTex
  | postDivergenceTex
  | density (i : Fin 2)
deriving DecidableEq

/-- One `glTexImage2D` allocation: texture, width, height and channel count
of the internal format (`GL_RG32F` = 2, `GL_R32F` = 1, `GL_RGBA32F` = 4). -/
structure TexAlloc where
  tex : TexName
  width : ℕ
  height : ℕ
  channels : ℕ
deriving DecidableEq

/-- `createTextures()` (`main.c:210-261`): every simulation texture is
allocated at `SIM_WIDTH × SIM_HEIGHT`; the two velocity textures are
`GL_RG32F` (both components per texel), pressure and the two divergence
scratch textures are `GL_R32F`, the two density textures `GL_RGBA32F`. -/
def createTextures : List TexAlloc :=
  [⟨TexName.velocity 0, 512, 512, 2⟩,
   ⟨TexName.velocity 1, 512, 512, 2⟩,
   ⟨TexName.pressure 0, 512, 512, 1⟩,
   ⟨TexName.pressure 1, 512, 512, 1⟩,
   ⟨TexName.divergenceTex, 512, 512, 1⟩,
   ⟨TexName.postDivergenceTex, 512, 512, 1⟩,
   ⟨TexName.density 0, 512, 512, 4⟩,
   ⟨TexName.density 1, 512, 512, 4⟩]

/-! ## Convergence diagnostics (`main.c:263-368`, `main.c:731-753`) -/

/-- `stats.histogram[post * 32 + pre]` with `ℕ` indices, as every diagnostic
loop of `main.c` reads it (indices are always `< 32` there). -/
def histGet (h : Hist) (post pre : ℕ) : ℕ :=
  if hq : post < 32 then
    if hp : pre < 32 then h.counts ⟨post, hq⟩ ⟨pre, hp⟩ else 0
  else 0

/-- Total of one `post` row, as accumulated by the inner `pre` loop of
`evaluateConvergence` (`main.c:742-744`). -/
def rowTotal (h : Hist) (post : ℕ) : ℕ :=
  ((List.range 32).map (fun pre => histGet h post pre)).sum

/-- Total of one `pre` column (the marginal `preSums` of `getTopBins`,
`main.c:285-294`). -/
def colTotal (h : Hist) (pre : ℕ) : ℕ :=
  ((List.range 32).map (fun post => histGet h post pre)).sum

/-- Grand total of the joint histogram. -/
def histTotal (h : Hist) : ℕ :=
  ∑ q : Fin 32, ∑ p : Fin 32, h.counts q p

/-- The `for (post = 31; post >= 0; post--) ... break` search of
`evaluateConvergence` (`main.c:740-750`): scan rows downward from `post`,
return the first with a non-zero total together with that total, defaulting
to `(0, 0)`. -/
def worstRow (h : Hist) : ℕ → ℕ × ℕ
  | 0 => if 0 < rowTotal h 0 then (0, rowTotal h 0) else (0, 0)
  | n + 1 => if 0 < rowTotal h (n + 1) then (n + 1, rowTotal h (n + 1)) else worstRow h n

/-- `evaluateConvergence` (`main.c:731-753`): the largest post-divergence row
index with any count (the "worst bin"), and the count in that row. -/
def evaluateConvergence (h : Hist) : ℕ × ℕ := worstRow h 31

/-- The double loop of `printStats2DTable` (`main.c:332-340`) computing
`(minCol, maxCol)` over the `pre` columns holding any data, from the
initial `(31, 0)`. -/
def scanCols (h : Hist) : ℕ × ℕ :=
  (List.range 32).foldl
    (fun mm pre =>
      (List.range 32).foldl
        (fun mm post =>
          if 0 < histGet h post pre then
            (if pre < mm.1 then pre else mm.1,
             if pre > mm.2 then pre else mm.2)
          else mm)
        mm)
    (31, 0)

/-- The shape of the table printed by `printStats2DTable` (`main.c:326-368`):
`none` when the histogram is empty (`minCol > maxCol`, early `return`),
otherwise the list of printed column indices (`minCol..maxCol`,
`main.c:346-348`) and the list of printed row indices (rows with any data in
the printed column range, `main.c:352-357`). -/
def printStats2DTable (h : Hist) : Option (List ℕ × List ℕ) :=
  let mm := scanCols h
  if mm.1 > mm.2 then none
  else
    let cols := List.range' mm.1 (mm.2 + 1 - mm.1)
    let rows := (List.range 32).filter
      (fun post => cols.any (fun pre => 0 < histGet h post pre))
    some (cols, rows)

/-! ## The offline ω search (`main.c:709-797`) -/

/-- The velocity texture written by `setupImpulseTest` (`main.c:721-727`):
all zero except a unit impulse `(1, 0)` at the centre cell
`(SIM_WIDTH/2, SIM_HEIGHT/2)`. -/
def impulseVelField : VelField :=
  fun x y => if x.val = 256 ∧ y.val = 256 then ((1 : ℚ), (0 : ℚ)) else (0, 0)

/-- `setupImpulseTest()` (`main.c:709-728`): clear both buffers of velocity,
density and pressure, reset all three cursors to 0, then write the single
centre impulse into `velocityTex[currentVel]` = `velocityTex[0]`.  The stats
SSBO and the solver parameters are untouched. -/
def setupImpulseTest (s : SimState) : SimState :=
  { s with
    currentVel := false
    currentPressure := false
    currentDensity := false
    vel := fun b => if b then zeroVel else impulseVelField
    pres := fun _ => zeroField
    dens := fun _ => zeroD }

/-- The histogram measured by one `testOmega` run: the contents of the stats
buffer after one `simulate(0.016f)` step from the impulse state, with
`pressureIterations = n` and `pressureOmega = ω`. -/
def stepHist (K : Kernels) (n : ℕ) (ω : ℚ) : Hist :=
  let v1 := K.advect (16/1000) 1 impulseVelField
  let div := K.divergence v1
  let v2 := K.gradSub ((sorIter K ω div)^[n] zeroField) v1
  computeStats2D div (K.divergence v2)

/-- The trace of one `testOmega` call, as a function of the iteration budget
and the candidate ω. -/
def testOmegaTrace (n : ℕ) (ω : ℚ) : List Op :=
  [Op.setOmega ω, Op.resetImpulse] ++ simTrace false false false n ω ++ [Op.evalConv]

/-- `testOmega(omega, &worstBin, &worstCount)` (`main.c:755-766`): set the
global `pressureOmega`, reset to the impulse test case, run one
`simulate(0.016f)` step, and read back `evaluateConvergence`. -/
def testOmega (K : Kernels) (ω : ℚ) (s : SimState) :
    SimState × (ℕ × ℕ) × List Op :=
  let s1 := setupImpulseTest { s with pressureOmega := ω }
  let r := simulate K (16/1000) s1
  (r.1, evaluateConvergence r.1.hist,
   [Op.setOmega ω, Op.resetImpulse] ++ r.2 ++ [Op.evalConv])

/-- Candidate `i` of the sweep (`main.c:779`):
`omega = omegaMin + (omegaMax - omegaMin) * i / (numBins - 1)`. -/
def candidateOmega (omegaMin omegaMax : ℚ) (numBins i : ℕ) : ℚ :=
  omegaMin + (omegaMax - omegaMin) * i / ((numBins - 1 : ℕ) : ℚ)

/-- The running best of the search loop (`main.c:774-776`). -/
structure SearchBest where
  omega : ℚ
  bin : ℕ
  cnt : ℕ
deriving DecidableEq

/-- `bestOmega = omegaMin; bestWorstBin = 31; bestWorstCount = INT_MAX;`
(`main.c:774-776`). -/
def searchInit (omegaMin : ℚ) : SearchBest := ⟨omegaMin, 31, 2147483647⟩

/-- The update `main.c:786-791`: take the candidate when its worst bin is
lower, or equal with a strictly lower count. -/
def searchStep (best : SearchBest) (ω : ℚ) (r : ℕ × ℕ) : SearchBest :=
  if r.1 < best.bin ∨ (r.1 = best.bin ∧ r.2 < best.cnt) then ⟨ω, r.1, r.2⟩ else best

/-- `runOmegaSearch(omegaMin, omegaMax, numBins)` (`main.c:768-797`): for each
of the `numBins` evenly spaced candidates, run `testOmega` and update the
running best; returns the final simulation state, the selected best, and the
concatenated trace.  The best is only printed (`main.c:796`); it is never
assigned back to `pressureOmega`. -/
def runOmegaSearch (K : Kernels) (omegaMin omegaMax : ℚ) (numBins : ℕ)
    (s : SimState) : SimState × SearchBest × List Op :=
  (List.range numBins).foldl
    (fun acc i =>
      let ω := candidateOmega omegaMin omegaMax numBins i
      let r := testOmega K ω acc.1
      (r.1, searchStep acc.2.1 ω r.2.1, acc.2.2 ++ r.2.2))
    (s, searchInit omegaMin, [])

/-! ## Concrete states -/

/-- A trivial shader semantics (identity / zero kernels), used to instantiate
the abstract `Kernels` bundle at concrete inputs. -/
def trivialKernels : Kernels where
  advect := fun _ _ v => v
  divergence := fun _ => zeroField
  sweep := fun _ _ _ p => p
  gradSub := fun _ v => v
  advectDensity := fun _ _ _ d => d
  force := fun _ _ v => v
  forceDye := fun _ _ d => d

/-- The state at the first `simulate` call of the main loop: all textures
zeroed (`main.c:910-915`), cursors 0, and the interactive solver parameters
`pressureIterations = 100`, `pressureOmega = 1.9f` set at `main.c:920-921`. -/
def initialState : SimState where
  currentVel := false
  currentPressure := false
  currentDensity := false
  vel := fun _ => zeroVel
  pres := fun _ => zeroField
  divergenceTex := zeroField
  postDivergenceTex := zeroField
  dens := fun _ => zeroD
  hist := zeroHist
  pressureIterations := 100
  pressureOmega := 19/10

/-- `initialState` with a one-iteration budget, a small concrete state used
to instantiate universally quantified theorems. -/
def smallState : SimState :=
  { initialState with pressureIterations := 1 }

/-- The file-scope initializer `float pressureOmega = 1.8f;` (`main.c:23`). -/
def pressureOmegaDefault : ℚ := 9/5

/-! ## Kernel kinds: the trace with bindings and barriers abstracted away -/

/-- The kind of a pipeline action, forgetting buffer indices and uniforms. -/
inductive Kind where
  | advectVelocity
  | advectDensity
  | divergencePre
  | divergencePost
  | clearPressure
  | sweepRed
  | sweepBlack
  | gradientSubtract
  | clearHistogram
  | accumulateHistogram
  | forceInjection
  | setOmega
  | resetImpulse
  | evalConvergence
deriving DecidableEq

/-- Kind of one `Op`; barriers are dropped. -/
def kindOf : Op → Option Kind
  | Op.advectVel .. => some Kind.advectVelocity
  | Op.advectDen .. => some Kind.advectDensity
  | Op.divergence _ DivTarget.pre => some Kind.divergencePre
  | Op.divergence _ DivTarget.post => some Kind.divergencePost
  | Op.clearPressure _ => some Kind.clearPressure
  | Op.sweep true _ _ _ => some Kind.sweepRed
  | Op.sweep false _ _ _ => some Kind.sweepBlack
  | Op.gradientSubtract .. => some Kind.gradientSubtract
  | Op.clearStats => some Kind.clearHistogram
  | Op.accumStats => some Kind.accumulateHistogram
  | Op.forceDispatch .. => some Kind.forceInjection
  | Op.barrier => none
  | Op.setOmega _ => some Kind.setOmega
  | Op.resetImpulse => some Kind.resetImpulse
  | Op.evalConv => some Kind.evalConvergence

/-- The kind sequence of one simulation step. -/
def stepKinds (n : ℕ) : List Kind :=
  [Kind.advectVelocity, Kind.divergencePre, Kind.clearPressure] ++
  (List.replicate n [Kind.sweepRed, Kind.sweepBlack]).flatten ++
  [Kind.gradientSubtract, Kind.divergencePost,
   Kind.clearHistogram, Kind.accumulateHistogram, Kind.advectDensity]

/-! ## Trace lemmas -/

theorem simulate_trace (K : Kernels) (dt : ℚ) (s : SimState) :
    (simulate K dt s).2 = simTrace s.currentVel s.currentPressure
      s.currentDensity s.pressureIterations s.pressureOmega := rfl

theorem flatten_replicate_filterMap {α β : Type} (f : α → Option β)
    (l : List α) (n : ℕ) :
    (List.replicate n l).flatten.filterMap f =
      (List.replicate n (l.filterMap f)).flatten := by
  induction n with
  | zero => simp
  | succ k ih => simp [List.replicate_succ, List.filterMap_append, ih]

theorem mem_flatten_replicate {α : Type} {a : α} {l : List α} {n : ℕ}
    (hn : n ≠ 0) (ha : a ∈ l) : a ∈ (List.replicate n l).flatten := by
  exact List.mem_flatten.2 ⟨l, List.mem_replicate.2 ⟨hn, rfl⟩, ha⟩

theorem forall_mem_flatten_replicate {α : Type} {l : List α} {n : ℕ}
    {P : α → Prop} (h : ∀ a ∈ l, P a) :
    ∀ a ∈ (List.replicate n l).flatten, P a := by
  intro a ha
  rcases List.mem_flatten.1 ha with ⟨l', hl', ha'⟩
  rcases List.eq_of_mem_replicate hl' with rfl
  exact h a ha'

theorem all_flatten_replicate {α : Type} {l : List α} {n : ℕ}
    {p : α → Bool} (h : l.all p = true) :
    ((List.replicate n l).flatten.all p) = true := by
  rw [List.all_eq_true] at h ⊢
  exact forall_mem_flatten_replicate h

theorem filter_flatten_replicate_length {α : Type} (p : α → Bool)
    (l : List α) (n : ℕ) :
    ((List.replicate n l).flatten.filter p).length = n * (l.filter p).length := by
  induction n with
  | zero => simp
  | succ k ih =>
    simp [List.replicate_succ, List.filter_append, ih, Nat.succ_mul, Nat.add_comm]

/-- The kind sequence of a step trace. -/
theorem simTrace_kinds (cv cp cd : Bool) (n : ℕ) (ω : ℚ) :
    (simTrace cv cp cd n ω).filterMap kindOf = stepKinds n := by
  rw [simTrace, stepKinds, List.filterMap_append, List.filterMap_append,
    flatten_replicate_filterMap]
  rfl

/-- No force dispatch ever occurs inside a step trace. -/
theorem force_not_mem_simTrace (cv cp cd v d : Bool) (n : ℕ) (ω : ℚ) :
    Op.forceDispatch v d ∉ simTrace cv cp cd n ω := by
  intro h
  rcases List.mem_append.1 h with h12 | h3
  · rcases List.mem_append.1 h12 with h1 | h2
    · simp at h1
    · rcases List.mem_flatten.1 h2 with ⟨l', hl', ha'⟩
      rcases List.eq_of_mem_replicate hl' with rfl
      simp [sorSweepOps] at ha'
  · simp at h3

/-! ## Histogram arithmetic -/

theorem listSum_range (f : ℕ → ℕ) (n : ℕ) :
    ((List.range n).map f).sum = ∑ i in Finset.range n, f i := by
  induction n with
  | zero => simp
  | succ k ih => simp [List.range_succ, Finset.sum_range_succ, ih]

theorem rowTotal_eq_finSum (h : Hist) (post : ℕ) (hq : post < 32) :
    rowTotal h post = ∑ pre : Fin 32, h.counts ⟨post, hq⟩ pre := by
  rw [rowTotal, listSum_range,
    ← Fin.sum_univ_eq_sum_range (fun p => histGet h post p) 32]
  refine Finset.sum_congr rfl fun p _ => ?_
  simp [histGet, hq, p.isLt]

theorem histTotal_eq_rowTotals (h : Hist) :
    histTotal h = ∑ q in Finset.range 32, rowTotal h q := by
  rw [histTotal, ← Fin.sum_univ_eq_sum_range (fun q => rowTotal h q) 32]
  refine Finset.sum_congr rfl fun q _ => ?_
  rw [rowTotal_eq_finSum h q.val q.isLt]

theorem rowTotal_le_histTotal (h : Hist) (post : ℕ) (hq : post < 32) :
    rowTotal h post ≤ histTotal h := by
  rw [histTotal_eq_rowTotals]
  exact Finset.single_le_sum (fun i _ => Nat.zero_le _) (Finset.mem_range.2 hq)

/-- Histogram conservation: the stats pass deposits exactly one count per
grid cell, so the joint table always sums to `N × N`. -/
theorem computeStats2D_total (pre post : Field) :
    histTotal (computeStats2D pre post) = 512 * 512 := by
  have hcard :
      (Finset.univ : Finset (Fin 512 × Fin 512)).card =
        ∑ b in (Finset.univ : Finset (Fin 32 × Fin 32)),
          (Finset.univ.filter
            (fun c : Fin 512 × Fin 512 => binPair pre post c = b)).card :=
    Finset.card_eq_sum_card_fiberwise (fun x _ => Finset.mem_univ _)
  have hprod :
      ∑ b in (Finset.univ : Finset (Fin 32 × Fin 32)),
          (Finset.univ.filter
            (fun c : Fin 512 × Fin 512 => binPair pre post c = b)).card =
        ∑ q : Fin 32, ∑ p : Fin 32,
          (Finset.univ.filter
            (fun c : Fin 512 × Fin 512 => binPair pre post c = (q, p))).card := by
    rw [← Finset.univ_product_univ, Finset.sum_product]
  have huniv : (Finset.univ : Finset (Fin 512 × Fin 512)).card = 512 * 512 := by
    rw [Finset.card_univ, Fintype.card_prod]
    rw [Fintype.card_fin]
  rw [histTotal]
  calc ∑ q : Fin 32, ∑ p : Fin 32, (computeStats2D pre post).counts q p
      = ∑ b in (Finset.univ : Finset (Fin 32 × Fin 32)),
          (Finset.univ.filter
            (fun c : Fin 512 × Fin 512 => binPair pre post c = b)).card := by
        rw [hprod]; rfl
    _ = (Finset.univ : Finset (Fin 512 × Fin 512)).card := hcard.symm
    _ = 512 * 512 := huniv

/-! ## `worstRow` / `evaluateConvergence` lemmas -/

theorem worstRow_fst_le (h : Hist) (k : ℕ) : (worstRow h k).1 ≤ k := by
  induction k with
  | zero => by_cases hp : 0 < rowTotal h 0 <;> simp [worstRow, hp]
  | succ m ih =>
    by_cases hp : 0 < rowTotal h (m + 1)
    · simp [worstRow, hp]
    · simp only [worstRow, hp, if_false]
      omega

theorem worstRow_snd_eq (h : Hist) (k : ℕ) :
    (worstRow h k).2 = rowTotal h (worstRow h k).1 := by
  induction k with
  | zero =>
    by_cases hp : 0 < rowTotal h 0
    · simp [worstRow, hp]
    · simp only [worstRow, hp, if_false]
      omega
  | succ m ih =>
    by_cases hp : 0 < rowTotal h (m + 1) <;> simp [worstRow, hp, ih]

theorem worstRow_above (h : Hist) (k : ℕ) :
    ∀ p, (worstRow h k).1 < p → p ≤ k → rowTotal h p = 0 := by
  induction k with
  | zero =>
    intro p h1 h2
    by_cases hp : 0 < rowTotal h 0 <;> simp [worstRow, hp] at h1 <;> omega
  | succ m ih =>
    intro p h1 h2
    by_cases hp : 0 < rowTotal h (m + 1)
    · simp [worstRow, hp] at h1; omega
    · simp only [worstRow, hp, if_false] at h1
      rcases Nat.lt_succ_iff_lt_or_eq.1 (Nat.lt_succ_of_le h2) with hlt | rfl
      · exact ih p h1 (by omega)
      · omega

theorem worstRow_pos (h : Hist) (k : ℕ)
    (hex : ∃ p, p ≤ k ∧ 0 < rowTotal h p) :
    0 < rowTotal h (worstRow h k).1 := by
  induction k with
  | zero =>
    rcases hex with ⟨p, hp, hpos⟩
    interval_cases p
    simp [worstRow, hpos]
  | succ m ih =>
    by_cases hp : 0 < rowTotal h (m + 1)
    · simp [worstRow, hp]
    · simp only [worstRow, hp, if_false]
      rcases hex with ⟨p, hple, hpos⟩
      rcases Nat.lt_succ_iff_lt_or_eq.1 (Nat.lt_succ_of_le hple) with hlt | rfl
      · exact ih ⟨p, by omega, hpos⟩
      · omega

theorem evaluateConvergence_fst_le (h : Hist) : (evaluateConvergence h).1 ≤ 31 :=
  worstRow_fst_le h 31

theorem evaluateConvergence_snd_le (h : Hist) :
    (evaluateConvergence h).2 ≤ histTotal h := by
  rw [evaluateConvergence, worstRow_snd_eq]
  exact rowTotal_le_histTotal h _ (Nat.lt_succ_of_le (worstRow_fst_le h 31))

/-! ## `scanCols` characterization -/

/-- Column `pre` holds any count (the inner-loop test of `main.c:333-339`). -/
def colAny (h : Hist) (pre : ℕ) : Bool :=
  (List.range 32).any fun post => decide (0 < histGet h post pre)

theorem nat_list_sum_pos {l : List ℕ} :
    0 < l.sum ↔ ∃ x ∈ l, 0 < x := by
  induction l with
  | nil => simp
  | cons a l ih =>
    simp only [List.sum_cons, List.mem_cons]
    constructor
    · intro hpos
      rcases Nat.pos_iff_ne_zero.1 hpos with h
      by_cases ha : 0 < a
      · exact ⟨a, Or.inl rfl, ha⟩
      · have : 0 < l.sum := by omega
        rcases ih.1 this with ⟨x, hx, hx0⟩
        exact ⟨x, Or.inr hx, hx0⟩
    · rintro ⟨x, hx | hx, hx0⟩
      · omega
      · have := ih.2 ⟨x, hx, hx0⟩; omega

theorem colAny_iff (h : Hist) (pre : ℕ) :
    colAny h pre = true ↔ 0 < colTotal h pre := by
  rw [colAny, List.any_eq_true, colTotal, nat_list_sum_pos]
  constructor
  · rintro ⟨post, hpost, hp⟩
    exact ⟨histGet h post pre, List.mem_map_of_mem _ hpost, by simpa using hp⟩
  · rintro ⟨x, hx, hx0⟩
    rcases List.mem_map.1 hx with ⟨post, hpost, rfl⟩
    exact ⟨post, hpost, by simpa using hx0⟩

theorem rowTotal_pos_iff (h : Hist) (post : ℕ) :
    0 < rowTotal h post ↔ ∃ pre < 32, 0 < histGet h post pre := by
  rw [rowTotal, nat_list_sum_pos]
  constructor
  · rintro ⟨x, hx, hx0⟩
    rcases List.mem_map.1 hx with ⟨pre, hpre, rfl⟩
    exact ⟨pre, List.mem_range.1 hpre, hx0⟩
  · rintro ⟨pre, hpre, hp⟩
    exact ⟨histGet h post pre, List.mem_map_of_mem _ (List.mem_range.2 hpre), hp⟩

theorem histGet_pos_colAny {h : Hist} {post pre : ℕ} (hpost : post < 32)
    (hp : 0 < histGet h post pre) : colAny h pre = true := by
  rw [colAny, List.any_eq_true]
  exact ⟨post, List.mem_range.2 hpost, by simpa using hp⟩

/-- The inner `post` loop of the `(minCol, maxCol)` scan collapses to a
single conditional min/max update. -/
theorem scanCols_inner (h : Hist) (pre : ℕ) :
    ∀ (L : List ℕ) (mm : ℕ × ℕ),
      L.foldl
        (fun mm post =>
          if 0 < histGet h post pre then
            (if pre < mm.1 then pre else mm.1,
             if pre > mm.2 then pre else mm.2)
          else mm)
        mm =
      if L.any (fun post => decide (0 < histGet h post pre)) then
        (min mm.1 pre, max mm.2 pre)
      else mm := by
  intro L
  induction L with
  | nil => intro mm; simp
  | cons a L ih =>
    intro mm
    by_cases ha : 0 < histGet h a pre
    · have h1 : (if pre < mm.1 then pre else mm.1) = min mm.1 pre := by
        split_ifs <;> omega
      have h2 : (if pre > mm.2 then pre else mm.2) = max mm.2 pre := by
        split_ifs <;> omega
      have hd : decide (0 < histGet h a pre) = true := decide_eq_true ha
      simp only [List.foldl_cons, List.any_cons, if_pos ha, hd,
        Bool.true_or, if_true, h1, h2, ih]
      by_cases hL : L.any (fun post => decide (0 < histGet h post pre)) = true
      · simp [hL, min_assoc, max_assoc]
      · simp [hL]
    · have hd : decide (0 < histGet h a pre) = false := decide_eq_false ha
      simp only [List.foldl_cons, List.any_cons, if_neg ha, hd,
        Bool.false_or, ih]

/-- One outer-loop step of the scan, after collapsing the inner loop. -/
def scanStep (h : Hist) (mm : ℕ × ℕ) (pre : ℕ) : ℕ × ℕ :=
  if colAny h pre then (min mm.1 pre, max mm.2 pre) else mm

/-- The scan restricted to the first `k` columns, from the initial `(31, 0)`. -/
def scanColsAux (h : Hist) (k : ℕ) : ℕ × ℕ :=
  (List.range k).foldl (scanStep h) (31, 0)

theorem scanCols_eq_aux (h : Hist) : scanCols h = scanColsAux h 32 := by
  rw [scanCols, scanColsAux]
  apply List.foldl_ext
  intro mm pre _
  rw [scanCols_inner h pre (List.range 32) mm]
  rfl

/-- The invariant of the column scan: either no column seen so far holds
data and the accumulator is untouched, or both accumulator components are
data-holding columns bracketing every data-holding column seen so far. -/
theorem scanColsAux_spec (h : Hist) :
    ∀ k, k ≤ 32 →
      (scanColsAux h k = (31, 0) ∧ ∀ pre < k, colAny h pre = false) ∨
      (colAny h (scanColsAux h k).1 = true ∧ colAny h (scanColsAux h k).2 = true ∧
        (scanColsAux h k).1 ≤ (scanColsAux h k).2 ∧ (scanColsAux h k).2 < k ∧
        ∀ pre < k, colAny h pre = true →
          (scanColsAux h k).1 ≤ pre ∧ pre ≤ (scanColsAux h k).2) := by
  intro k
  induction k with
  | zero => intro _; left; constructor; rfl; omega
  | succ m ih =>
    intro hm
    have hstep : scanColsAux h (m + 1) = scanStep h (scanColsAux h m) m := by
      rw [scanColsAux, List.range_succ, List.foldl_append]
      rfl
    rcases ih (by omega) with ⟨hval, hnone⟩ | ⟨h1, h2, h3, h4, h5⟩
    · by_cases hc : colAny h m = true
      · right
        have hv : scanColsAux h (m + 1) = (m, m) := by
          rw [hstep, hval, scanStep, if_pos hc]
          have : min 31 m = m := by omega
          have h2 : max 0 m = m := by omega
          simp [this, h2]
        rw [hv]
        refine ⟨hc, hc, le_refl _, by omega, ?_⟩
        intro pre hpre hcol
        rcases Nat.lt_succ_iff_lt_or_eq.1 hpre with hlt | rfl
        · simp [hnone pre hlt] at hcol
        · omega
      · left
        have hv : scanColsAux h (m + 1) = (31, 0) := by
          rw [hstep, hval, scanStep, if_neg hc]
        refine ⟨hv, ?_⟩
        intro pre hpre
        rcases Nat.lt_succ_iff_lt_or_eq.1 hpre with hlt | rfl
        · exact hnone pre hlt
        · simpa using hc
    · right
      by_cases hc : colAny h m = true
      · have hv : scanColsAux h (m + 1) =
            (min (scanColsAux h m).1 m, max (scanColsAux h m).2 m) := by
          rw [hstep, scanStep, if_pos hc]
        rw [hv]
        have hmin : min (scanColsAux h m).1 m = (scanColsAux h m).1 ∨
            min (scanColsAux h m).1 m = m := by omega
        have hmax : max (scanColsAux h m).2 m = (scanColsAux h m).2 ∨
            max (scanColsAux h m).2 m = m := by omega
        refine ⟨?_, ?_, by omega, by omega, ?_⟩
        · rcases hmin with he | he <;> rw [he]
          exacts [h1, hc]
        · rcases hmax with he | he <;> rw [he]
          exacts [h2, hc]
        · intro pre hpre hcol
          rcases Nat.lt_succ_iff_lt_or_eq.1 hpre with hlt | rfl
          · have := h5 pre hlt hcol
            omega
          · omega
      · have hv : scanColsAux h (m + 1) = scanColsAux h m := by
          rw [hstep, scanStep, if_neg hc]
        rw [hv]
        refine ⟨h1, h2, h3, by omega, ?_⟩
        intro pre hpre hcol
        rcases Nat.lt_succ_iff_lt_or_eq.1 hpre with hlt | rfl
        · exact h5 pre hlt hcol
        · exact absurd hcol hc

/-! ## The ω-search loop invariant -/

/-- The comparison of `main.c:786`: a candidate with worst bin `rb` and count
`rc` strictly beats the running best `(bb, bc)` when its worst bin is lower,
or equal with a strictly lower count. -/
def betterScore (rb rc bb bc : ℕ) : Prop :=
  rb < bb ∨ (rb = bb ∧ rc < bc)

instance (rb rc bb bc : ℕ) : Decidable (betterScore rb rc bb bc) := by
  unfold betterScore; infer_instance

/-- The `(worstBin, worstCount)` measurement of one `testOmega` call as a
function of the iteration budget and the candidate ω. -/
def omegaScore (K : Kernels) (n : ℕ) (ω : ℚ) : ℕ × ℕ :=
  evaluateConvergence (stepHist K n ω)

theorem testOmega_iters (K : Kernels) (ω : ℚ) (s : SimState) :
    (testOmega K ω s).1.pressureIterations = s.pressureIterations := rfl

theorem testOmega_omega (K : Kernels) (ω : ℚ) (s : SimState) :
    (testOmega K ω s).1.pressureOmega = ω := rfl

theorem testOmega_trace (K : Kernels) (ω : ℚ) (s : SimState) :
    (testOmega K ω s).2.2 = testOmegaTrace s.pressureIterations ω := rfl

theorem simulateImpulse_hist (K : Kernels) (ω : ℚ) (s : SimState) :
    (simulate K (16/1000)
        (setupImpulseTest { s with pressureOmega := ω })).1.hist =
      stepHist K s.pressureIterations ω := by
  simp only [simulate, stepHist, setupImpulseTest]
  norm_num

theorem testOmega_hist (K : Kernels) (ω : ℚ) (s : SimState) :
    (testOmega K ω s).1.hist = stepHist K s.pressureIterations ω := by
  simp only [testOmega]
  exact simulateImpulse_hist K ω s

theorem testOmega_result (K : Kernels) (ω : ℚ) (s : SimState) :
    (testOmega K ω s).2.1 = omegaScore K s.pressureIterations ω := by
  simp only [testOmega, omegaScore]
  exact congrArg evaluateConvergence (simulateImpulse_hist K ω s)

theorem searchStep_eq (best : SearchBest) (ω : ℚ) (r : ℕ × ℕ) :
    searchStep best ω r =
      if betterScore r.1 r.2 best.bin best.cnt then ⟨ω, r.1, r.2⟩ else best := rfl

theorem searchInit_bin (a : ℚ) : (searchInit a).bin = 31 := rfl

theorem searchInit_cnt (a : ℚ) : (searchInit a).cnt = 2147483647 := rfl

/-- The running invariant of the candidate loop of `runOmegaSearch`,
stated for an arbitrary per-candidate routine `T` (instantiated with
`testOmega K` below), candidate schedule `f`, measurement `g` and
per-candidate trace `tr`: over the first `k` candidates, the iteration
budget is untouched, the trace is the in-order concatenation of the
per-candidate traces, the global ω is the one the last candidate set, and
the running best is either the untouched sentinel (no candidate beat
`(31, INT_MAX)`) or some candidate whose score no processed candidate
beats. -/
theorem searchLoop_spec
    (T : ℚ → SimState → SimState × (ℕ × ℕ) × List Op)
    (f : ℕ → ℚ) (g : ℚ → ℕ × ℕ) (tr : ℕ → ℚ → List Op)
    (s : SimState) (a : ℚ)
    (hIter : ∀ ω st, (T ω st).1.pressureIterations = st.pressureIterations)
    (hOmega : ∀ ω st, (T ω st).1.pressureOmega = ω)
    (hTrace : ∀ ω st, (T ω st).2.2 = tr st.pressureIterations ω)
    (hRes : ∀ ω st, st.pressureIterations = s.pressureIterations →
      (T ω st).2.1 = g ω) :
    ∀ k,
      (((List.range k).foldl
        (fun acc i =>
          let ω := f i
          let r := T ω acc.1
          (r.1, searchStep acc.2.1 ω r.2.1, acc.2.2 ++ r.2.2))
        (s, searchInit a, ([] : List Op))).1.pressureIterations
          = s.pressureIterations) ∧
      (((List.range k).foldl
        (fun acc i =>
          let ω := f i
          let r := T ω acc.1
          (r.1, searchStep acc.2.1 ω r.2.1, acc.2.2 ++ r.2.2))
        (s, searchInit a, ([] : List Op))).2.2
          = ((List.range k).map
              (fun i => tr s.pressureIterations (f i))).flatten) ∧
      (((List.range k).foldl
        (fun acc i =>
          let ω := f i
          let r := T ω acc.1
          (r.1, searchStep acc.2.1 ω r.2.1, acc.2.2 ++ r.2.2))
        (s, searchInit a, ([] : List Op))).1.pressureOmega
          = (match k with
             | 0 => s.pressureOmega
             | j + 1 => f j)) ∧
      ((((List.range k).foldl
        (fun acc i =>
          let ω := f i
          let r := T ω acc.1
          (r.1, searchStep acc.2.1 ω r.2.1, acc.2.2 ++ r.2.2))
        (s, searchInit a, ([] : List Op))).2.1 = searchInit a ∧
          ∀ i < k, ¬ betterScore (g (f i)).1 (g (f i)).2 31 2147483647) ∨
        (∃ i < k,
          (((List.range k).foldl
            (fun acc i =>
              let ω := f i
              let r := T ω acc.1
              (r.1, searchStep acc.2.1 ω r.2.1, acc.2.2 ++ r.2.2))
            (s, searchInit a, ([] : List Op))).2.1.omega = f i ∧
           ((List.range k).foldl
            (fun acc i =>
              let ω := f i
              let r := T ω acc.1
              (r.1, searchStep acc.2.1 ω r.2.1, acc.2.2 ++ r.2.2))
            (s, searchInit a, ([] : List Op))).2.1.bin = (g (f i)).1 ∧
           ((List.range k).foldl
            (fun acc i =>
              let ω := f i
              let r := T ω acc.1
              (r.1, searchStep acc.2.1 ω r.2.1, acc.2.2 ++ r.2.2))
            (s, searchInit a, ([] : List Op))).2.1.cnt = (g (f i)).2) ∧
          ∀ j < k, ¬ betterScore (g (f j)).1 (g (f j)).2
            (g (f i)).1 (g (f i)).2)) := by
  intro k
  induction k with
  | zero =>
    refine ⟨rfl, by simp, rfl, Or.inl ⟨rfl, by omega⟩⟩
  | succ n ih =>
    obtain ⟨ih1, ih2, ih3, ih4⟩ := ih
    have hsplit : ∀ {γ : Type} (F : γ → ℕ → γ) (z : γ),
        (List.range (n + 1)).foldl F z = F ((List.range n).foldl F z) n := by
      intro γ F z
      rw [List.range_succ, List.foldl_append]
      rfl
    rw [hsplit]
    set A := (List.range n).foldl
      (fun acc i =>
        let ω := f i
        let r := T ω acc.1
        (r.1, searchStep acc.2.1 ω r.2.1, acc.2.2 ++ r.2.2))
      (s, searchInit a, ([] : List Op)) with hA
    clear_value A
    have hred1 : (let ω := f n
                  let r := T ω A.1
                  (r.1, searchStep A.2.1 ω r.2.1, A.2.2 ++ r.2.2)).1
        = (T (f n) A.1).1 := rfl
    have hred2 : (let ω := f n
                  let r := T ω A.1
                  (r.1, searchStep A.2.1 ω r.2.1, A.2.2 ++ r.2.2)).2.1
        = searchStep A.2.1 (f n) (g (f n)) := by
      show searchStep A.2.1 (f n) (T (f n) A.1).2.1 = _
      rw [hRes (f n) A.1 ih1]
    have hred3 : (let ω := f n
                  let r := T ω A.1
                  (r.1, searchStep A.2.1 ω r.2.1, A.2.2 ++ r.2.2)).2.2
        = A.2.2 ++ (T (f n) A.1).2.2 := rfl
    refine ⟨?_, ?_, ?_, ?_⟩
    · rw [hred1, hIter, ih1]
    · rw [hred3, hTrace, ih1, ih2, List.range_succ, List.map_append,
        List.flatten_append]
      simp
    · rw [hred1, hOmega]
    · rw [hred2, searchStep_eq]
      by_cases hbet : betterScore (g (f n)).1 (g (f n)).2 A.2.1.bin A.2.1.cnt
      · rw [if_pos hbet]
        right
        refine ⟨n, by omega, ⟨rfl, rfl, rfl⟩, ?_⟩
        intro j hj
        rcases Nat.lt_succ_iff_lt_or_eq.1 hj with hlt | rfl
        · rcases ih4 with ⟨hsent, hall⟩ | ⟨i, hi, ⟨ho, hb, hc⟩, hall⟩
          · have h1 := hall j hlt
            rw [hsent, searchInit_bin, searchInit_cnt] at hbet
            revert h1 hbet
            unfold betterScore
            omega
          · have h1 := hall j hlt
            rw [hb, hc] at hbet
            revert h1 hbet
            unfold betterScore
            omega
        · unfold betterScore
          omega
      · rw [if_neg hbet]
        rcases ih4 with ⟨hsent, hall⟩ | ⟨i, hi, ⟨ho, hb, hc⟩, hall⟩
        · left
          refine ⟨hsent, ?_⟩
          intro j hj
          rcases Nat.lt_succ_iff_lt_or_eq.1 hj with hlt | rfl
          · exact hall j hlt
          · rw [hsent, searchInit_bin, searchInit_cnt] at hbet
            exact hbet
        · right
          refine ⟨i, by omega, ⟨ho, hb, hc⟩, ?_⟩
          intro j hj
          rcases Nat.lt_succ_iff_lt_or_eq.1 hj with hlt | rfl
          · exact hall j hlt
          · rw [hb, hc] at hbet
            exact hbet

/-- `searchLoop_spec` instantiated at `testOmega K`: the four invariants of
one `runOmegaSearch(omegaMin, omegaMax, numBins)` call. -/
theorem runOmegaSearch_spec (K : Kernels) (a b : ℚ) (n : ℕ) (s : SimState) :
    ((runOmegaSearch K a b n s).1.pressureIterations = s.pressureIterations) ∧
    ((runOmegaSearch K a b n s).2.2 = ((List.range n).map
        (fun i => testOmegaTrace s.pressureIterations
          (candidateOmega a b n i))).flatten) ∧
    ((runOmegaSearch K a b n s).1.pressureOmega =
      (match n with
       | 0 => s.pressureOmega
       | j + 1 => candidateOmega a b n j)) ∧
    (((runOmegaSearch K a b n s).2.1 = searchInit a ∧
        ∀ i < n, ¬ betterScore
          (omegaScore K s.pressureIterations (candidateOmega a b n i)).1
          (omegaScore K s.pressureIterations (candidateOmega a b n i)).2
          31 2147483647) ∨
      (∃ i < n,
        ((runOmegaSearch K a b n s).2.1.omega = candidateOmega a b n i ∧
         (runOmegaSearch K a b n s).2.1.bin =
           (omegaScore K s.pressureIterations (candidateOmega a b n i)).1 ∧
         (runOmegaSearch K a b n s).2.1.cnt =
           (omegaScore K s.pressureIterations (candidateOmega a b n i)).2) ∧
        ∀ j < n, ¬ betterScore
          (omegaScore K s.pressureIterations (candidateOmega a b n j)).1
          (omegaScore K s.pressureIterations (candidateOmega a b n j)).2
          (omegaScore K s.pressureIterations (candidateOmega a b n i)).1
          (omegaScore K s.pressureIterations (candidateOmega a b n i)).2)) :=
  searchLoop_spec (testOmega K) (candidateOmega a b n)
    (fun ω => omegaScore K s.pressureIterations ω) testOmegaTrace s a
    (fun ω st => testOmega_iters K ω st)
    (fun ω st => testOmega_omega K ω st)
    (fun ω st => testOmega_trace K ω st)
    (fun ω st h => by rw [testOmega_result K ω st, h]) n

/-! ## Score bounds -/

theorem stepHist_total (K : Kernels) (n : ℕ) (ω : ℚ) :
    histTotal (stepHist K n ω) = 512 * 512 := by
  simp only [stepHist]
  exact computeStats2D_total _ _

theorem omegaScore_fst_le (K : Kernels) (n : ℕ) (ω : ℚ) :
    (omegaScore K n ω).1 ≤ 31 :=
  evaluateConvergence_fst_le _

theorem omegaScore_snd_le (K : Kernels) (n : ℕ) (ω : ℚ) :
    (omegaScore K n ω).2 ≤ 512 * 512 := by
  have h := evaluateConvergence_snd_le (stepHist K n ω)
  rw [stepHist_total] at h
  exact h

theorem omegaScore_beats_sentinel (K : Kernels) (n : ℕ) (ω : ℚ) :
    betterScore (omegaScore K n ω).1 (omegaScore K n ω).2 31 2147483647 := by
  have h1 := omegaScore_fst_le K n ω
  have h2 := omegaScore_snd_le K n ω
  unfold betterScore
  omega

/-! ## `evaluateConvergence` characterization -/

theorem evaluateConvergence_snd_eq (h : Hist) :
    (evaluateConvergence h).2 = rowTotal h (evaluateConvergence h).1 :=
  worstRow_snd_eq h 31

theorem evaluateConvergence_above (h : Hist) :
    ∀ p ≤ 31, (evaluateConvergence h).1 < p → rowTotal h p = 0 :=
  fun p hp hlt => worstRow_above h 31 p hlt hp

theorem evaluateConvergence_pos (h : Hist)
    (hex : ∃ p, p ≤ 31 ∧ 0 < rowTotal h p) :
    0 < rowTotal h (evaluateConvergence h).1 :=
  worstRow_pos h 31 hex

/-! ## Further trace helpers -/

/-- Is an op a pressure half-sweep dispatch? -/
def isSweep : Op → Bool
  | Op.sweep .. => true
  | _ => false

/-- Does a sweep op use `pressureTex[cp]` as both its read and its write
buffer (vacuously true for non-sweeps)? -/
def sweepInPlaceOn (cp : Bool) : Op → Bool
  | Op.sweep _ r w _ => (r == cp) && (w == cp)
  | _ => true

/-- The `dissipation` uniforms of the velocity-advection dispatches. -/
def velDissipations (t : List Op) : List ℚ :=
  t.filterMap fun op => match op with
    | Op.advectVel _ _ d => some d
    | _ => none

/-- The `dissipation` uniforms of the density-advection dispatches. -/
def denDissipations (t : List Op) : List ℚ :=
  t.filterMap fun op => match op with
    | Op.advectDen _ _ _ d => some d
    | _ => none

theorem flatten_replicate_nil {α : Type} (n : ℕ) :
    (List.replicate n ([] : List α)).flatten = [] := by
  induction n with
  | zero => rfl
  | succ k ih => simp [List.replicate_succ, ih]

theorem force_not_mem_stepKinds (n : ℕ) :
    Kind.forceInjection ∉ stepKinds n := by
  intro h
  rcases List.mem_append.1 h with h12 | h3
  · rcases List.mem_append.1 h12 with h1 | h2
    · simp at h1
    · rcases List.mem_flatten.1 h2 with ⟨l, hl, hin⟩
      rcases List.eq_of_mem_replicate hl with rfl
      simp at hin
  · simp at h3

/-! ## Claim theorems -/

/-- **C1, counterexample.**  The claim says a simulation step begins with
density advection and contains a force-injection kernel between velocity
advection and the divergence computation.  At the shipped initial state
(`pressureIterations = 100`, ω = 1.9) the first kernel of `simulate` is the
velocity advection — not density advection — and no force dispatch occurs
anywhere in the step trace. -/
theorem claim_C1_counterexample :
    ((simulate trivialKernels (16/1000) initialState).2.filterMap kindOf).head?
        = some Kind.advectVelocity ∧
      Kind.advectVelocity ≠ Kind.advectDensity ∧
      Kind.forceInjection ∉
        (simulate trivialKernels (16/1000) initialState).2.filterMap kindOf := by
  refine ⟨?_, by decide, ?_⟩
  · rw [simulate_trace, simTrace_kinds]
    rfl
  · rw [simulate_trace, simTrace_kinds]
    exact force_not_mem_stepKinds _

/-- **C1, amended.**  The kernel order of every `simulate` invocation is:
advect velocity, pre-projection divergence, pressure clear, the Red/Black
sweep pairs, gradient subtraction, post-projection divergence, histogram
clear, histogram accumulation, and *then* density advection (last, not
first).  Force injection is never part of the step: it is issued by the
separate `addForce` entry point, called from the mouse callback. -/
theorem claim_C1_step_order (K : Kernels) (dt x y dx dy : ℚ) (s : SimState) :
    (simulate K dt s).2.filterMap kindOf =
      [Kind.advectVelocity, Kind.divergencePre, Kind.clearPressure] ++
      (List.replicate s.pressureIterations
        [Kind.sweepRed, Kind.sweepBlack]).flatten ++
      [Kind.gradientSubtract, Kind.divergencePost, Kind.clearHistogram,
       Kind.accumulateHistogram, Kind.advectDensity] ∧
    Kind.forceInjection ∉ (simulate K dt s).2.filterMap kindOf ∧
    (addForce K x y dx dy s).2.filterMap kindOf = [Kind.forceInjection] := by
  refine ⟨?_, ?_, rfl⟩
  · rw [simulate_trace, simTrace_kinds]
    rfl
  · rw [simulate_trace, simTrace_kinds]
    exact force_not_mem_stepKinds _

/-- **C2, counterexample.**  The claim says the U velocity component lives in
a `(N+1)×N` buffer and the V component in a `N×(N+1)` buffer, never
collocated.  In `createTextures` every allocation — velocity included — is
`512×512`; no buffer has a 513-sized axis, and both velocity textures are
2-channel (`GL_RG32F`), i.e. U and V share every texel. -/
theorem claim_C2_counterexample :
    createTextures.all
        (fun a => (a.width == 512) && (a.height == 512)) = true ∧
    createTextures.countP
        (fun a => (a.width == 513) || (a.height == 513)) = 0 ∧
    (⟨TexName.velocity 0, 512, 512, 2⟩ : TexAlloc) ∈ createTextures ∧
    (⟨TexName.velocity 1, 512, 512, 2⟩ : TexAlloc) ∈ createTextures := by
  decide

/-- **C2, amended.**  The velocity field is collocated, not staggered: both
components are stored per texel of a single double-buffered 2-channel
`512×512` texture pair; pressure and the divergence scratch buffers are
1-channel `512×512`, density 4-channel `512×512`.  No `(N+1)`-sized buffer
exists. -/
theorem claim_C2_buffers :
    createTextures.all
        (fun a => (a.width == 512) && (a.height == 512)) = true ∧
    createTextures =
      [⟨TexName.velocity 0, 512, 512, 2⟩,
       ⟨TexName.velocity 1, 512, 512, 2⟩,
       ⟨TexName.pressure 0, 512, 512, 1⟩,
       ⟨TexName.pressure 1, 512, 512, 1⟩,
       ⟨TexName.divergenceTex, 512, 512, 1⟩,
       ⟨TexName.postDivergenceTex, 512, 512, 1⟩,
       ⟨TexName.density 0, 512, 512, 4⟩,
       ⟨TexName.density 1, 512, 512, 4⟩] := by
  decide

/-- **C3.**  Every pressure solve starts by zeroing the pressure buffer in
full, then performs exactly `pressureIterations` iterations — each a complete
Red half-sweep, a barrier, a complete Black half-sweep, a barrier — with no
residual-based early stopping: the trace shape depends only on the buffer
cursors and solver parameters, never on the field contents, the histogram,
`dt`, or the kernel semantics, and the number of half-sweep dispatches is
exactly `2 * pressureIterations`. -/
theorem claim_C3_pressure_solve (K : Kernels) (dt : ℚ) (s : SimState) :
    (simulate K dt s).2 =
      [Op.advectVel s.currentVel (!s.currentVel) 1, Op.barrier,
       Op.divergence (!s.currentVel) DivTarget.pre, Op.barrier,
       Op.clearPressure s.currentPressure] ++
      (List.replicate s.pressureIterations
        [Op.sweep true s.currentPressure s.currentPressure s.pressureOmega,
         Op.barrier,
         Op.sweep false s.currentPressure s.currentPressure s.pressureOmega,
         Op.barrier]).flatten ++
      [Op.gradientSubtract s.currentPressure (!s.currentVel) s.currentVel,
       Op.barrier,
       Op.divergence s.currentVel DivTarget.post, Op.barrier,
       Op.clearStats, Op.accumStats, Op.barrier,
       Op.advectDen s.currentVel s.currentDensity (!s.currentDensity)
         (999/1000), Op.barrier] ∧
    ((simulate K dt s).2.filter isSweep).length = 2 * s.pressureIterations ∧
    (simulate K dt s).1.pres s.currentPressure =
      (sorIter K s.pressureOmega
        (K.divergence (K.advect dt 1
          (s.vel s.currentVel))))^[s.pressureIterations] zeroField ∧
    (∀ x y, zeroField x y = 0) := by
  refine ⟨rfl, ?_, ?_, fun x y => rfl⟩
  · rw [simulate_trace, simTrace]
    rw [List.filter_append, List.filter_append, List.length_append,
      List.length_append, filter_flatten_replicate_length]
    simp [isSweep, sorSweepOps, Nat.mul_comm]
  · show updateBuf s.pres s.currentPressure _ s.currentPressure = _
    simp [updateBuf]

/-- **C5, counterexample.**  The claim says the pressure solve ping-pongs
between the two pressure buffers so that no sweep reads and writes the same
buffer.  At the shipped initial state the very first Red sweep reads *and*
writes `pressureTex[0]` (one `GL_READ_WRITE` binding), and `currentPressure`
is unchanged by the whole step — no ping-pong ever happens. -/
theorem claim_C5_counterexample :
    Op.sweep true false false (19/10) ∈
      (simulate trivialKernels (16/1000) initialState).2 ∧
    (simulate trivialKernels (16/1000) initialState).1.currentPressure =
      initialState.currentPressure := by
  constructor
  · rw [simulate_trace]
    show Op.sweep true false false (19/10) ∈ simTrace false false false 100 (19/10)
    have hmem : Op.sweep true false false (19/10) ∈
        sorSweepOps false (19/10) := by simp [sorSweepOps]
    have hflat : Op.sweep true false false (19/10) ∈
        (List.replicate 100 (sorSweepOps false (19/10))).flatten :=
      mem_flatten_replicate (by norm_num) hmem
    exact List.mem_append.2 (Or.inl (List.mem_append.2 (Or.inr hflat)))
  · rfl

/-- **C5, amended.**  The pressure solve is single-buffered and in place:
every half-sweep of every step reads and writes `pressureTex[currentPressure]`
through one read-write binding, `currentPressure` never changes, and the other
pressure buffer is never touched by the solve.  (Safety comes from the
Red-Black partition, not from ping-ponging.) -/
theorem claim_C5_in_place (K : Kernels) (dt : ℚ) (s : SimState) :
    ((simulate K dt s).2.all (sweepInPlaceOn s.currentPressure)) = true ∧
    (simulate K dt s).1.currentPressure = s.currentPressure ∧
    (simulate K dt s).1.pres (!s.currentPressure) =
      s.pres (!s.currentPressure) := by
  refine ⟨?_, rfl, ?_⟩
  · rw [simulate_trace, simTrace]
    rw [List.all_append, List.all_append]
    have hblock : (sorSweepOps s.currentPressure s.pressureOmega).all
        (sweepInPlaceOn s.currentPressure) = true := by
      simp [sorSweepOps, sweepInPlaceOn]
    rw [all_flatten_replicate hblock]
    simp [sweepInPlaceOn]
  · show updateBuf s.pres s.currentPressure _ (!s.currentPressure) = _
    simp [updateBuf]

/-- **C6.**  In every simulation step the velocity self-advection dispatch
receives dissipation exactly `1.0` and the density advection dispatch
receives dissipation `0.999` — strictly less than one — and each occurs
exactly once. -/
theorem claim_C6_dissipation (K : Kernels) (dt : ℚ) (s : SimState) :
    velDissipations (simulate K dt s).2 = [1] ∧
    denDissipations (simulate K dt s).2 = [999/1000] ∧
    (999/1000 : ℚ) < 1 := by
  refine ⟨?_, ?_, by norm_num⟩
  · rw [simulate_trace, simTrace, velDissipations,
      List.filterMap_append, List.filterMap_append,
      flatten_replicate_filterMap]
    have : (sorSweepOps s.currentPressure s.pressureOmega).filterMap
        (fun op => match op with
          | Op.advectVel _ _ d => some d
          | _ => none) = [] := rfl
    rw [this, flatten_replicate_nil]
    rfl
  · rw [simulate_trace, simTrace, denDissipations,
      List.filterMap_append, List.filterMap_append,
      flatten_replicate_filterMap]
    have : (sorSweepOps s.currentPressure s.pressureOmega).filterMap
        (fun op => match op with
          | Op.advectDen _ _ _ d => some d
          | _ => none) = [] := rfl
    rw [this, flatten_replicate_nil]
    rfl

/-- **C8, counterexample.**  The claim says the histogram is reset at the
*start* of every simulation step.  At the shipped initial state the first
kernel of the step is the velocity advection; the histogram clear occurs only
later in the step (immediately before accumulation). -/
theorem claim_C8_counterexample :
    ((simulate trivialKernels (16/1000) initialState).2.filterMap kindOf).head?
        = some Kind.advectVelocity ∧
      Kind.advectVelocity ≠ Kind.clearHistogram ∧
      Kind.clearHistogram ∈
        (simulate trivialKernels (16/1000) initialState).2.filterMap kindOf := by
  refine ⟨?_, by decide, ?_⟩
  · rw [simulate_trace, simTrace_kinds]
    rfl
  · rw [simulate_trace, simTrace_kinds]
    show Kind.clearHistogram ∈ stepKinds 100
    refine List.mem_append.2 (Or.inr ?_)
    simp

/-- **C8, amended.**  The histogram is cleared once per step immediately
before the accumulation dispatch — after projection and the post-divergence
computation, not at the start of the step — with no accumulation before the
clear; and after any step the joint histogram sums to exactly `N × N`
(every one of the `512 × 512` cells contributes one `(pre, post)` pair). -/
theorem claim_C8_histogram (K : Kernels) (dt : ℚ) (s : SimState) :
    (∃ A B, (simulate K dt s).2 =
        A ++ [Op.clearStats, Op.accumStats, Op.barrier] ++ B ∧
      Op.accumStats ∉ A ∧ Op.clearStats ∉ A) ∧
    histTotal ((simulate K dt s).1.hist) = 512 * 512 := by
  constructor
  · refine ⟨[Op.advectVel s.currentVel (!s.currentVel) 1, Op.barrier,
       Op.divergence (!s.currentVel) DivTarget.pre, Op.barrier,
       Op.clearPressure s.currentPressure] ++
      (List.replicate s.pressureIterations
        (sorSweepOps s.currentPressure s.pressureOmega)).flatten ++
      [Op.gradientSubtract s.currentPressure (!s.currentVel) s.currentVel,
       Op.barrier, Op.divergence s.currentVel DivTarget.post, Op.barrier],
      [Op.advectDen s.currentVel s.currentDensity (!s.currentDensity)
         (999/1000), Op.barrier], ?_, ?_, ?_⟩
    · rw [simulate_trace, simTrace]
      simp [List.append_assoc]
    · intro hmem
      rcases List.mem_append.1 hmem with h12 | h3
      · rcases List.mem_append.1 h12 with h1 | h2
        · simp at h1
        · rcases List.mem_flatten.1 h2 with ⟨l, hl, hin⟩
          rcases List.eq_of_mem_replicate hl with rfl
          simp [sorSweepOps] at hin
      · simp at h3
    · intro hmem
      rcases List.mem_append.1 hmem with h12 | h3
      · rcases List.mem_append.1 h12 with h1 | h2
        · simp at h1
        · rcases List.mem_flatten.1 h2 with ⟨l, hl, hin⟩
          rcases List.eq_of_mem_replicate hl with rfl
          simp [sorSweepOps] at hin
      · simp at h3
  · have hh : (simulate K dt s).1.hist =
        computeStats2D
          (K.divergence (K.advect dt 1 (s.vel s.currentVel)))
          (K.divergence (K.gradSub
            ((sorIter K s.pressureOmega
              (K.divergence (K.advect dt 1
                (s.vel s.currentVel))))^[s.pressureIterations] zeroField)
            (K.advect dt 1 (s.vel s.currentVel)))) := rfl
    rw [hh]
    exact computeStats2D_total _ _

theorem colTotal_eq_zero_iff (h : Hist) (pre : ℕ) :
    colTotal h pre = 0 ↔ ∀ post < 32, histGet h post pre = 0 := by
  constructor
  · intro h0 post hpost
    by_contra hne
    have hpos : 0 < colTotal h pre := by
      rw [colTotal]
      exact nat_list_sum_pos.2 ⟨histGet h post pre,
        List.mem_map_of_mem _ (List.mem_range.2 hpost), by omega⟩
    omega
  · intro hall
    by_contra hne
    have hpos : 0 < colTotal h pre := by omega
    rw [colTotal] at hpos
    rcases nat_list_sum_pos.1 hpos with ⟨x, hx, hx0⟩
    rcases List.mem_map.1 hx with ⟨post, hpost, rfl⟩
    have := hall post (List.mem_range.1 hpost)
    omega

theorem printStats2DTable_eq (h : Hist) :
    printStats2DTable h =
      if (scanCols h).1 > (scanCols h).2 then none
      else some
        (List.range' (scanCols h).1 ((scanCols h).2 + 1 - (scanCols h).1),
         (List.range 32).filter (fun post =>
           (List.range' (scanCols h).1
             ((scanCols h).2 + 1 - (scanCols h).1)).any
             (fun pre => decide (0 < histGet h post pre)))) := rfl

/-- The histogram of `claim_C9_counterexample`: counts only at
`(post, pre) = (0, 0)` and `(0, 2)`, so column 1 is all-empty but lies
between two non-empty columns. -/
def hGap : Hist :=
  ⟨fun q p => if q = 0 ∧ (p = 0 ∨ p = 2) then 1 else 0⟩

set_option maxRecDepth 100000 in
/-- **C9, counterexample.**  The claim says an all-empty column never appears
in the printed table.  For `hGap` the printed columns are `0, 1, 2` although
column 1 has zero total count: only empty columns *outside* the span of
non-empty columns are trimmed. -/
theorem claim_C9_counterexample :
    printStats2DTable hGap = some ([0, 1, 2], [0]) ∧
    colTotal hGap 1 = 0 ∧ (1 : ℕ) ∈ [0, 1, 2] := by
  refine ⟨by decide, by decide, by decide⟩

/-- **C9, amended.**  The printed table omits every all-empty row (rows are
trimmed individually and exactly), prints nothing for an all-empty histogram,
and prints as columns exactly the contiguous range from the lowest to the
highest non-empty column — both endpoints non-empty and every non-empty
column included — so all-empty columns outside that span are omitted, but an
all-empty column strictly between two non-empty ones is still printed. -/
theorem claim_C9_trimming (h : Hist) :
    (printStats2DTable h = none ↔
      ∀ post < 32, ∀ pre < 32, histGet h post pre = 0) ∧
    (∀ cols rows, printStats2DTable h = some (cols, rows) →
      rows = (List.range 32).filter
        (fun post => decide (0 < rowTotal h post)) ∧
      ∃ lo hi, lo ≤ hi ∧ cols = List.range' lo (hi + 1 - lo) ∧
        0 < colTotal h lo ∧ 0 < colTotal h hi ∧
        ∀ pre < 32, 0 < colTotal h pre → pre ∈ cols) := by
  have hscan := scanColsAux_spec h 32 (le_refl 32)
  rw [← scanCols_eq_aux] at hscan
  by_cases hdata : ∀ pre < 32, colAny h pre = false
  · have hval : scanCols h = (31, 0) := by
      rcases hscan with ⟨hv, _⟩ | ⟨h1, h2, h3, h4, h5⟩
      · exact hv
      · exfalso
        have h1f := hdata (scanCols h).1 (by omega)
        rw [h1f] at h1
        cases h1
    have hnone : printStats2DTable h = none := by
      rw [printStats2DTable_eq, hval]
      norm_num
    have hzero : ∀ post < 32, ∀ pre < 32, histGet h post pre = 0 := by
      intro post hpost pre hpre
      have hcf := hdata pre hpre
      have hct : colTotal h pre = 0 := by
        by_contra hne
        have hc : colAny h pre = true := (colAny_iff h pre).2 (by omega)
        rw [hcf] at hc
        cases hc
      exact (colTotal_eq_zero_iff h pre).1 hct post hpost
    refine ⟨⟨fun _ => hzero, fun _ => hnone⟩, ?_⟩
    intro cols rows heq
    rw [hnone] at heq
    cases heq
  · push_neg at hdata
    obtain ⟨pre0, hpre0, hc0⟩ := hdata
    have hc0t : colAny h pre0 = true := by
      cases hx : colAny h pre0
      · exact absurd hx hc0
      · rfl
    rcases hscan with ⟨hv, hnoneCol⟩ | ⟨h1, h2, h3, h4, h5⟩
    · rw [hnoneCol pre0 hpre0] at hc0t
      cases hc0t
    · have hle : ¬ (scanCols h).1 > (scanCols h).2 := by omega
      have hsome : printStats2DTable h = some
          (List.range' (scanCols h).1 ((scanCols h).2 + 1 - (scanCols h).1),
           (List.range 32).filter (fun post =>
             (List.range' (scanCols h).1
               ((scanCols h).2 + 1 - (scanCols h).1)).any
               (fun pre => decide (0 < histGet h post pre)))) := by
        rw [printStats2DTable_eq, if_neg hle]
      have hnz : ∃ post < 32, ∃ pre < 32, 0 < histGet h post pre := by
        have hctp := (colAny_iff h pre0).1 hc0t
        by_contra hno
        push_neg at hno
        have hzero : colTotal h pre0 = 0 :=
          (colTotal_eq_zero_iff h pre0).2
            (fun post hpost => by
              have := hno post hpost pre0 hpre0
              omega)
        omega
      constructor
      · constructor
        · intro hnone
          rw [hsome] at hnone
          cases hnone
        · intro hall
          exfalso
          obtain ⟨post, hpost, pre, hpre, hpos⟩ := hnz
          have := hall post hpost pre hpre
          omega
      · intro cols rows heq
        rw [hsome] at heq
        simp only [Option.some.injEq, Prod.mk.injEq] at heq
        obtain ⟨rfl, rfl⟩ := heq
        refine ⟨?_, (scanCols h).1, (scanCols h).2, h3, rfl,
          (colAny_iff h _).1 h1, (colAny_iff h _).1 h2, ?_⟩
        · apply List.filter_congr
          intro post hpost
          have hpost32 : post < 32 := List.mem_range.1 hpost
          by_cases hrow : 0 < rowTotal h post
          · rcases (rowTotal_pos_iff h post).1 hrow with ⟨pre, hpre, hpos⟩
            have hcolpre : colAny h pre = true := histGet_pos_colAny hpost32 hpos
            have hrange := h5 pre hpre hcolpre
            have hmem : pre ∈ List.range' (scanCols h).1
                ((scanCols h).2 + 1 - (scanCols h).1) := by
              rw [List.mem_range'_1]
              omega
            have hany : (List.range' (scanCols h).1
                ((scanCols h).2 + 1 - (scanCols h).1)).any
                  (fun pre => decide (0 < histGet h post pre)) = true :=
              List.any_eq_true.2 ⟨pre, hmem, by simpa using hpos⟩
            rw [hany, decide_eq_true hrow]
          · have hany : (List.range' (scanCols h).1
                ((scanCols h).2 + 1 - (scanCols h).1)).any
                  (fun pre => decide (0 < histGet h post pre)) = false := by
              by_contra hne
              have htrue : (List.range' (scanCols h).1
                  ((scanCols h).2 + 1 - (scanCols h).1)).any
                    (fun pre => decide (0 < histGet h post pre)) = true := by
                cases hx : (List.range' (scanCols h).1
                    ((scanCols h).2 + 1 - (scanCols h).1)).any
                      (fun pre => decide (0 < histGet h post pre))
                · exact absurd hx hne
                · rfl
              rcases List.any_eq_true.1 htrue with ⟨pre, hmem, hp⟩
              rw [List.mem_range'_1] at hmem
              have hpre32 : pre < 32 := by omega
              exact hrow ((rowTotal_pos_iff h post).2
                ⟨pre, hpre32, by simpa using hp⟩)
            rw [hany, decide_eq_false hrow]
        · intro pre hpre hct
          have hc : colAny h pre = true := (colAny_iff h pre).2 hct
          have := h5 pre hpre hc
          rw [List.mem_range'_1]
          omega

set_option maxRecDepth 100000 in
/-- **C9, witness** for the amended theorem at the concrete histogram
`hGap`. -/
theorem claim_C9_witness :
    [0] = (List.range 32).filter
        (fun post => decide (0 < rowTotal hGap post)) ∧
      ∃ lo hi, lo ≤ hi ∧ [0, 1, 2] = List.range' lo (hi + 1 - lo) ∧
        0 < colTotal hGap lo ∧ 0 < colTotal hGap hi ∧
        ∀ pre < 32, 0 < colTotal hGap pre → pre ∈ [0, 1, 2] :=
  (claim_C9_trimming hGap).2 [0, 1, 2] [0] (by decide)

set_option maxRecDepth 100000 in
/-- **C7, counterexample.**  The claim says every ω passed to the pressure
solver lies in `(0, 2)` because callers reject or clamp `ω ≥ 2`.  Invoking
the offline search over the range `[1.5, 2.5]` with 3 samples passes the raw
candidate `ω = 2.5 ≥ 2` straight to the solver: the search trace contains a
Red half-sweep dispatch running at `ω = 5/2`. -/
theorem claim_C7_counterexample :
    Op.sweep true false false (5/2) ∈
      (runOmegaSearch trivialKernels (3/2) (5/2) 3 smallState).2.2 ∧
    ¬ ((5/2 : ℚ) < 2) := by
  constructor
  · rw [(runOmegaSearch_spec trivialKernels (3/2) (5/2) 3 smallState).2.1]
    have hc : candidateOmega (3/2) (5/2) 3 2 = 5/2 := by
      unfold candidateOmega
      norm_num
    refine List.mem_flatten.2
      ⟨testOmegaTrace smallState.pressureIterations
         (candidateOmega (3/2) (5/2) 3 2),
       List.mem_map_of_mem _ (by decide), ?_⟩
    rw [hc]
    show Op.sweep true false false (5/2) ∈ testOmegaTrace 1 (5/2)
    have hmem : Op.sweep true false false (5/2) ∈ sorSweepOps false (5/2) := by
      simp [sorSweepOps]
    have hflat : Op.sweep true false false (5/2) ∈
        (List.replicate 1 (sorSweepOps false (5/2))).flatten :=
      mem_flatten_replicate (by norm_num) hmem
    exact List.mem_append.2 (Or.inl (List.mem_append.2 (Or.inr
      (List.mem_append.2 (Or.inl (List.mem_append.2 (Or.inr hflat)))))))
  · norm_num

/-- **C7, amended.**  No caller validates ω.  The offline search forwards
every sampled candidate to the solver unchanged — its trace is exactly the
concatenation of the per-candidate traces at the raw `candidateOmega`
values, with no rejection or clamping — so `ω ≥ 2` reaches the solver
whenever the configured range contains it.  The only direct in-code
assignments, the file-scope default `1.8f` and the interactive setting
`1.9f`, do lie in `(0, 2)`. -/
theorem claim_C7_omega_validation (K : Kernels) (a b : ℚ) (n : ℕ)
    (s : SimState) :
    (runOmegaSearch K a b n s).2.2 =
      ((List.range n).map (fun i =>
        testOmegaTrace s.pressureIterations (candidateOmega a b n i))).flatten ∧
    (0 < pressureOmegaDefault ∧ pressureOmegaDefault < 2) ∧
    (0 < initialState.pressureOmega ∧ initialState.pressureOmega < 2) := by
  refine ⟨(runOmegaSearch_spec K a b n s).2.1, ?_, ?_⟩
  · constructor <;> norm_num [pressureOmegaDefault]
  · show (0 : ℚ) < 19/10 ∧ (19/10 : ℚ) < 2
    constructor <;> norm_num

/-- **C4.**  For every search invocation over at least two samples:
the trace is, per candidate, a `pressureOmega` write, a reset to the
canonical single-point impulse state, exactly one simulation step at the
fixed iteration budget `s.pressureIterations`, and one convergence readback
(`testOmegaTrace`); the score of a candidate is the highest non-empty
post-divergence row of its step histogram together with that row's count;
and the selected best is a candidate whose `(worst bin, count)` pair is
lexicographically minimal among all candidates. -/
theorem claim_C4_omega_search (K : Kernels) (a b : ℚ) (n : ℕ) (s : SimState)
    (hn : 2 ≤ n) :
    (runOmegaSearch K a b n s).2.2 =
      ((List.range n).map (fun i =>
        testOmegaTrace s.pressureIterations (candidateOmega a b n i))).flatten ∧
    (∀ ω, (omegaScore K s.pressureIterations ω).2 =
        rowTotal (stepHist K s.pressureIterations ω)
          (omegaScore K s.pressureIterations ω).1 ∧
      ∀ p ≤ 31, (omegaScore K s.pressureIterations ω).1 < p →
        rowTotal (stepHist K s.pressureIterations ω) p = 0) ∧
    (∃ i < n,
      (runOmegaSearch K a b n s).2.1.omega = candidateOmega a b n i ∧
      (runOmegaSearch K a b n s).2.1.bin =
        (omegaScore K s.pressureIterations (candidateOmega a b n i)).1 ∧
      (runOmegaSearch K a b n s).2.1.cnt =
        (omegaScore K s.pressureIterations (candidateOmega a b n i)).2 ∧
      ∀ j < n,
        (omegaScore K s.pressureIterations (candidateOmega a b n i)).1 <
            (omegaScore K s.pressureIterations (candidateOmega a b n j)).1 ∨
          ((omegaScore K s.pressureIterations (candidateOmega a b n i)).1 =
              (omegaScore K s.pressureIterations (candidateOmega a b n j)).1 ∧
            (omegaScore K s.pressureIterations (candidateOmega a b n i)).2 ≤
              (omegaScore K s.pressureIterations (candidateOmega a b n j)).2)) := by
  obtain ⟨hiter, htrace, homega, hbest⟩ := runOmegaSearch_spec K a b n s
  refine ⟨htrace, ?_, ?_⟩
  · intro ω
    exact ⟨evaluateConvergence_snd_eq _,
      fun p hp hlt => evaluateConvergence_above _ p hp hlt⟩
  · rcases hbest with ⟨_, hall⟩ | ⟨i, hi, ⟨ho, hb, hc⟩, hall⟩
    · exact absurd (omegaScore_beats_sentinel K s.pressureIterations _)
        (hall 0 (by omega))
    · refine ⟨i, hi, ho, hb, hc, ?_⟩
      intro j hj
      have h1 := hall j hj
      revert h1
      unfold betterScore
      omega

/-- **C4, witness**: the theorem instantiated at `numBins = 2` over
`[1, 2]` with the trivial kernel semantics and the shipped initial state. -/
theorem claim_C4_witness :
    (2 ≤ 2) ∧
    ((runOmegaSearch trivialKernels 1 2 2 initialState).2.2 =
      ((List.range 2).map (fun i =>
        testOmegaTrace initialState.pressureIterations
          (candidateOmega 1 2 2 i))).flatten ∧
    (∀ ω, (omegaScore trivialKernels initialState.pressureIterations ω).2 =
        rowTotal (stepHist trivialKernels initialState.pressureIterations ω)
          (omegaScore trivialKernels initialState.pressureIterations ω).1 ∧
      ∀ p ≤ 31,
        (omegaScore trivialKernels initialState.pressureIterations ω).1 < p →
        rowTotal (stepHist trivialKernels initialState.pressureIterations ω)
          p = 0) ∧
    (∃ i < 2,
      (runOmegaSearch trivialKernels 1 2 2 initialState).2.1.omega =
        candidateOmega 1 2 2 i ∧
      (runOmegaSearch trivialKernels 1 2 2 initialState).2.1.bin =
        (omegaScore trivialKernels initialState.pressureIterations
          (candidateOmega 1 2 2 i)).1 ∧
      (runOmegaSearch trivialKernels 1 2 2 initialState).2.1.cnt =
        (omegaScore trivialKernels initialState.pressureIterations
          (candidateOmega 1 2 2 i)).2 ∧
      ∀ j < 2,
        (omegaScore trivialKernels initialState.pressureIterations
            (candidateOmega 1 2 2 i)).1 <
            (omegaScore trivialKernels initialState.pressureIterations
              (candidateOmega 1 2 2 j)).1 ∨
          ((omegaScore trivialKernels initialState.pressureIterations
              (candidateOmega 1 2 2 i)).1 =
              (omegaScore trivialKernels initialState.pressureIterations
                (candidateOmega 1 2 2 j)).1 ∧
            (omegaScore trivialKernels initialState.pressureIterations
              (candidateOmega 1 2 2 i)).2 ≤
              (omegaScore trivialKernels initialState.pressureIterations
                (candidateOmega 1 2 2 j)).2))) :=
  ⟨by norm_num,
   claim_C4_omega_search trivialKernels 1 2 2 initialState (by norm_num)⟩

/-- **C10.**  After `runOmegaSearch` returns, the global `pressureOmega`
equals the last candidate sampled — `omegaMax`, the upper end of the range,
whenever at least two samples are taken — for *every* possible kernel
semantics, i.e. independently of which candidate scored best: the selected
optimum is only reported, never written back to the solver parameter. -/
theorem claim_C10_omega_not_written_back (K : Kernels) (a b : ℚ) (n : ℕ)
    (s : SimState) (hn : 2 ≤ n) :
    (runOmegaSearch K a b n s).1.pressureOmega =
      candidateOmega a b n (n - 1) ∧
    candidateOmega a b n (n - 1) = b := by
  constructor
  · obtain ⟨m, rfl⟩ : ∃ m, n = m + 1 := ⟨n - 1, by omega⟩
    have h3 := (runOmegaSearch_spec K a b (m + 1) s).2.2.1
    simpa using h3
  · unfold candidateOmega
    have hne : ((n - 1 : ℕ) : ℚ) ≠ 0 := by
      have h1 : 0 < n - 1 := by omega
      exact (Nat.cast_pos.2 h1).ne'
    rw [mul_div_assoc, div_self hne, mul_one]
    ring

/-- **C10, witness**: a two-sample search over `[1, 3/2]` leaves the solver
at `ω = 3/2`, the upper end of the range. -/
theorem claim_C10_witness :
    (2 ≤ 2) ∧
    ((runOmegaSearch trivialKernels 1 (3/2) 2 initialState).1.pressureOmega =
        candidateOmega 1 (3/2) 2 (2 - 1) ∧
      candidateOmega 1 (3/2) 2 (2 - 1) = 3/2) :=
  ⟨by norm_num,
   claim_C10_omega_not_written_back trivialKernels 1 (3/2) 2 initialState
     (by norm_num)⟩

end StableFluids
